import Mathlib

/-!
Shallow embedding of the core logic of the Solar-Farm-Analysis dashboard
(`src/notebooks/scripts/stream.py`): the dataset loader `load_data`, the
`CrossCountryAnalyzer` aggregation and key-observation methods, and the
per-country insight function `generate_country_insights`.

Modelling conventions:
* A pandas cell that may be `NaN`/missing is an `Option ℚ`; `none` is a
  missing value.  All pandas statistics (`mean`, `median`, `std`, `min`,
  `max`) skip missing values (`skipna=True`), which the embedding mirrors
  by dropping `none` before computing.
* `Series.unique()` returns values in order of first appearance;
  `groupby` (with its default `sort=True`) lists group keys in ascending
  order; `DataFrame.pivot` returns its row index in ascending order;
  `Series.idxmax` returns the first index attaining the maximum and skips
  missing values; `Series.argsort` places missing distances last (numpy
  semantics of pandas 2.x).  String keys compare by code points, embedded
  by the executable relation `strRel` below (Lean's builtin `String`
  order does not reduce in the kernel).
* `std` is the square root of the sample variance (`ddof=1`); the
  embedding stores the variance itself in the field `stdSq` so values
  stay rational: the code's `Std Dev` cell is `Real.sqrt` of `stdSq`,
  and `std` is defined/undefined exactly when `stdSq` is.
* A pandas `DataFrame` is a `DFrame`: its records plus the optional
  derived `Hour` column (`generate_country_insights` assigns
  `df['Hour'] = df['Timestamp'].dt.hour` in place, so the embedding
  passes the frame state explicitly and every operation returns the
  state of the frame it was given alongside its result).
* Exceptions are `Except String`; the reading of one CSV file is an
  oracle `String → Option (List RawRecord)` (`none` = the `pd.read_csv`
  or `pd.to_datetime` call raised, i.e. a missing or malformed file).
-/

/-- A parsed timestamp; only the hour-of-day component is ever used by the
program (`df['Timestamp'].dt.hour`). -/
structure Timestamp where
  day : ℕ
  hour : ℕ
  minute : ℕ
deriving DecidableEq

/-- One row of a per-country CSV file, before the loader tags it with its
country: the parsed timestamp and the four numeric measurement columns,
each possibly missing. -/
structure RawRecord where
  timestamp : Timestamp
  ghi : Option ℚ
  dni : Option ℚ
  dhi : Option ℚ
  tamb : Option ℚ
deriving DecidableEq

/-- One record of the combined table: a raw record tagged with its source
country (`df['Country'] = country` in `load_data`). -/
structure Record where
  timestamp : Timestamp
  country : String
  ghi : Option ℚ
  dni : Option ℚ
  dhi : Option ℚ
  tamb : Option ℚ
deriving DecidableEq

/-- Tagging of one raw CSV row with its country, as done by
`df['Country'] = country` in `load_data`. -/
def tagCountry (c : String) (r : RawRecord) : Record :=
  { timestamp := r.timestamp, country := c, ghi := r.ghi, dni := r.dni,
    dhi := r.dhi, tamb := r.tamb }

/-- The loop body of `load_data` for one `(country, path)` entry: tag the
rows of a successful read with the country, propagate a read failure
(`none`: the `pd.read_csv`/`pd.to_datetime` call raised). -/
def loadEntry (readCsv : String → Option (List RawRecord))
    (e : String × String) : Option (String × List Record) :=
  (readCsv e.2).map fun rows => (e.1, rows.map (tagCountry e.1))

/-- Embedding of `load_data` (stream.py lines 44-66).  `readCsv` is the
file-system oracle: for a path it yields the parsed rows, or `none` when
reading raises (missing or malformed file).  Each `(country, path)` entry
that reads successfully goes into the `countries` mapping; a failure only
skips that entry.  If at least one country loaded, the first component is
the concatenation of the loaded per-country tables in entry order
(`pd.concat(countries.values())`), otherwise the function returns
`(None, {})`. -/
def load_data (readCsv : String → Option (List RawRecord))
    (filePaths : List (String × String)) :
    Option (List Record) × List (String × List Record) :=
  let countries := filePaths.filterMap (loadEntry readCsv)
  if countries.isEmpty then (none, [])
  else (some ((countries.map Prod.snd).flatten), countries)

/-- Number of records of the loaded combined table (`len(comparison_df)`);
an absent table counts 0. -/
def recordCount : Option (List Record) → ℕ
  | none => 0
  | some l => l.length

/-- Whether `main` proceeds past its load check: stream.py lines 172-174
return early exactly when `comparison_df is None`. -/
def mainProceeds (res : Option (List Record) × List (String × List Record)) :
    Bool :=
  res.1.isSome

/-- A pandas `DataFrame` holding measurement records: the records
themselves plus the optional derived `Hour` column that
`generate_country_insights` assigns in place. -/
structure DFrame where
  rows : List Record
  hourCol : Option (List ℕ)
deriving DecidableEq

/-- Dropping of missing values from a column, as pandas statistics do
with `skipna=True`. -/
def dropna (xs : List (Option ℚ)) : List ℚ :=
  xs.filterMap id

/-- Mean of a column in pandas semantics: the mean of the non-missing
values, `NaN` (here `none`) when there are none. -/
def seriesMean (xs : List (Option ℚ)) : Option ℚ :=
  let v := dropna xs
  if v.isEmpty then none else some (v.sum / v.length)

/-- Executable code-point comparison of character lists (lexicographic),
used to embed how pandas sorts string group keys. -/
def strListLe : List Char → List Char → Bool
  | [], _ => true
  | _ :: _, [] => false
  | a :: as, b :: bs =>
    if a.toNat = b.toNat then strListLe as bs else decide (a.toNat < b.toNat)

/-- Code-point ≤ on strings (Python's string comparison, used by pandas
when sorting country names). -/
def strLe (a b : String) : Bool :=
  strListLe a.data b.data

/-- The ordering relation on country names used by `groupby(sort=True)`
and by the `pivot` row index. -/
def strRel (a b : String) : Prop :=
  strLe a b = true

instance : DecidableRel strRel :=
  fun a b => inferInstanceAs (Decidable (strLe a b = true))

/-- First-occurrence deduplication, auxiliary recursion carrying the set
of already-seen values. -/
def uniqueAux {α : Type} [DecidableEq α] (seen : List α) : List α → List α
  | [] => []
  | a :: rest =>
    if a ∈ seen then uniqueAux seen rest else a :: uniqueAux (a :: seen) rest

/-- Embedding of pandas `Series.unique()`: the distinct values in order of
first appearance. -/
def uniqueFirst {α : Type} [DecidableEq α] (l : List α) : List α :=
  uniqueAux [] l

/-- The distinct country names of a record list in first-appearance order
(`self.df['Country'].unique()`). -/
def uniqueCountries (rows : List Record) : List String :=
  uniqueFirst (rows.map Record.country)

/-- The records of one country
(`self.df[self.df['Country'] == country]`). -/
def countryRows (rows : List Record) (c : String) : List Record :=
  rows.filter fun r => r.country == c

/-- Pandas median: the middle of the sorted non-missing values, the mean
of the two middles for an even count, `NaN` for an empty column. -/
def seriesMedian (xs : List (Option ℚ)) : Option ℚ :=
  let v := List.insertionSort (· ≤ ·) (dropna xs)
  let n := v.length
  if n = 0 then none
  else if n % 2 = 1 then some (v.getD (n / 2) 0)
  else some ((v.getD (n / 2 - 1) 0 + v.getD (n / 2) 0) / 2)

/-- Square of the pandas sample standard deviation (`ddof=1`): the sample
variance over the non-missing values, `NaN` when fewer than two are
present.  The `Std Dev` cell of the code is the square root of this. -/
def seriesVarSample (xs : List (Option ℚ)) : Option ℚ :=
  let v := dropna xs
  if v.length ≤ 1 then none
  else
    let m := v.sum / v.length
    some ((v.map fun x => (x - m) * (x - m)).sum / (v.length - 1))

/-- Pandas column minimum over non-missing values, `NaN` when empty. -/
def seriesMinimum (xs : List (Option ℚ)) : Option ℚ :=
  match dropna xs with
  | [] => none
  | a :: rest => some (rest.foldl min a)

/-- Pandas column maximum over non-missing values, `NaN` when empty. -/
def seriesMaximum (xs : List (Option ℚ)) : Option ℚ :=
  match dropna xs with
  | [] => none
  | a :: rest => some (rest.foldl max a)

/-- The three measurement columns aggregated by
`summary_statistics_table`. -/
inductive Metric
  | GHI
  | DNI
  | DHI
deriving DecidableEq

/-- The fixed metric list `['GHI', 'DNI', 'DHI']`. -/
def metrics : List Metric :=
  [Metric.GHI, Metric.DNI, Metric.DHI]

/-- The column of a record named by a metric. -/
def colVal : Metric → Record → Option ℚ
  | Metric.GHI, r => r.ghi
  | Metric.DNI, r => r.dni
  | Metric.DHI, r => r.dhi

/-- The metric column of one country's records
(`country_df[metric]`). -/
def colVals (rows : List Record) (c : String) (m : Metric) : List (Option ℚ) :=
  (countryRows rows c).map (colVal m)

/-- One row of `summary_data` (stream.py lines 106-114): the five
descriptive statistics of one metric for one country.  `stdSq` is the
square of the `Std Dev` cell. -/
structure StatRow where
  country : String
  metric : Metric
  mean : Option ℚ
  median : Option ℚ
  stdSq : Option ℚ
  vmin : Option ℚ
  vmax : Option ℚ
deriving DecidableEq

/-- Construction of one `summary_data` row for a country and metric. -/
def mkRow (rows : List Record) (c : String) (m : Metric) : StatRow :=
  { country := c, metric := m,
    mean := seriesMean (colVals rows c m),
    median := seriesMedian (colVals rows c m),
    stdSq := seriesVarSample (colVals rows c m),
    vmin := seriesMinimum (colVals rows c m),
    vmax := seriesMaximum (colVals rows c m) }

/-- The `summary_data` list built by the double loop of
`summary_statistics_table`: countries in first-appearance order, the
three metrics for each. -/
def summaryData (rows : List Record) : List StatRow :=
  (uniqueCountries rows).flatMap fun c => metrics.map (mkRow rows c)

/-- The pivoted summary table returned by `summary_statistics_table`:
`data` holds the per-(country, metric) statistic rows in construction
order, and `index` is the row order of the pivoted display
(`summary_df.pivot(index='Country', ...)`), which pandas returns in
ascending country order.  The cell of the pivoted table at row `c` and
column `(stat, m)` is the `stat` field of the `data` row with country `c`
and metric `m`. -/
structure SummaryTable where
  index : List String
  data : List StatRow
deriving DecidableEq

/-- Embedding of `CrossCountryAnalyzer.summary_statistics_table`
(stream.py lines 99-120).  The second component is the state of `self.df`
afterwards: the method only reads the frame. -/
def summary_statistics_table (df : DFrame) : SummaryTable × DFrame :=
  ({ index := List.insertionSort strRel (uniqueCountries df.rows),
     data := summaryData df.rows }, df)

/-- Per-country mean of one column, in ascending country order: embedding
of `self.df.groupby('Country')[col].mean()` (whose keys `groupby` sorts).
-/
def groupbyMean (rows : List Record) (f : Record → Option ℚ) :
    List (String × Option ℚ) :=
  (List.insertionSort strRel (uniqueCountries rows)).map fun c =>
    (c, seriesMean ((countryRows rows c).map f))

/-- Lookup with default 0 of a per-country mean, embedding
`means.get(country, 0)` of the observation text (a present country
contributes its mean, which may itself be `NaN`; an absent one displays
0). -/
def seriesGet (ms : List (String × Option ℚ)) (c : String) : Option ℚ :=
  match ms.lookup c with
  | some v => v
  | none => some 0

/-- Distance of a per-country mean temperature from the 25 °C reference,
`(temp_means - 25).abs()`; missing means have a missing distance. -/
def distTo25 (v : Option ℚ) : Option ℚ :=
  v.map fun x => |x - 25|

/-- Strict comparison of two distances as `argsort` orders them: any
defined distance precedes a missing one (numpy places `NaN` last). -/
def optDistLt (a b : Option ℚ) : Bool :=
  match a, b with
  | some x, some y => decide (x < y)
  | some _, none => true
  | none, _ => false

/-- The series entry at position `(temp_means - 25).abs().argsort()[0]`:
the first entry of minimal distance to 25 (`none` only for an empty
series, where the code's positional `[0]` raises). -/
def argminFirst : List (String × Option ℚ) → Option (String × Option ℚ)
  | [] => none
  | e :: rest =>
    match argminFirst rest with
    | none => some e
    | some b => if optDistLt (distTo25 b.2) (distTo25 e.2) then some b else some e

/-- The content of the observation text rendered by
`generate_key_observations`: the three "SOLAR POTENTIAL RANKING" lines in
print order, the "Highest Solar Potential" and "Best DNI" lines, and the
computed "Optimal Temperature" line. -/
structure Observations where
  ranking : List (String × Option ℚ)
  highestName : String
  highestGHI : Option ℚ
  bestDNIName : String
  bestDNIVal : Option ℚ
  optCountry : String
  optValue : Option ℚ
deriving DecidableEq

/-- The observation text built by `generate_key_observations` once the
closest-to-25 °C entry `e` is known: the ranking lines and the first two
insight lines name `Benin`, `Togo` and `Sierra Leone` literally in the
f-string, with their displayed means looked up by `means.get(name, 0)`;
only the optimal-temperature line carries the computed entry.  (The
method also computes `dhi_means`, which the text never uses.) -/
def mkObservations (rows : List Record) (e : String × Option ℚ) :
    Observations :=
  let ghiMeans := groupbyMean rows Record.ghi
  let dniMeans := groupbyMean rows Record.dni
  { ranking := [("Benin", seriesGet ghiMeans "Benin"),
                ("Togo", seriesGet ghiMeans "Togo"),
                ("Sierra Leone", seriesGet ghiMeans "Sierra Leone")],
    highestName := "Benin",
    highestGHI := seriesGet ghiMeans "Benin",
    bestDNIName := "Benin",
    bestDNIVal := seriesGet dniMeans "Benin",
    optCountry := e.1,
    optValue := e.2 }

/-- Embedding of `CrossCountryAnalyzer.generate_key_observations`
(stream.py lines 122-144).  The country and value closest to 25 °C are
computed from the grouped `Tamb` means (`argsort` on the absolute
distances, position 0); the rest of the text is `mkObservations`.  On an
empty frame `argsort()[0]` raises (`none` here).  The second component is
the state of `self.df` afterwards: the method only reads the frame. -/
def generate_key_observations (df : DFrame) : Option Observations × DFrame :=
  match argminFirst (groupbyMean df.rows Record.tamb) with
  | none => (none, df)
  | some e => (some (mkObservations df.rows e), df)

/-- The distinct hours of a record list in ascending order: the group
keys of `df.groupby('Hour')`. -/
def sortedHours (rows : List Record) : List ℕ :=
  List.insertionSort (· ≤ ·)
    (uniqueFirst (rows.map fun r => r.timestamp.hour))

/-- Mean GHI of the records falling in one hour
(`df.groupby('Hour')['GHI'].mean()` at key `h`). -/
def hourMean (rows : List Record) (h : ℕ) : Option ℚ :=
  seriesMean ((rows.filter fun r => r.timestamp.hour == h).map Record.ghi)

/-- Running maximum of `idxmax`: scans key/mean pairs, skips missing
means, and replaces the current best only on a strictly greater value, so
the first maximal key wins. -/
def runMax (best : ℕ × ℚ) : List (ℕ × Option ℚ) → ℕ × ℚ
  | [] => best
  | (_, none) :: rest => runMax best rest
  | (h, some v) :: rest => runMax (if best.2 < v then (h, v) else best) rest

/-- Embedding of `Series.idxmax`: the first key of maximal defined value,
`none` when every value is missing (where pandas raises). -/
def idxmax : List (ℕ × Option ℚ) → Option ℕ
  | [] => none
  | (_, none) :: rest => idxmax rest
  | (h, some v) :: rest => some (runMax (h, v) rest).1

/-- `df.groupby('Hour')['GHI'].mean().idxmax()`: the hour keys in
ascending order with their mean GHI, reduced by `idxmax`. -/
def peakHourOf (rows : List Record) : Option ℕ :=
  idxmax ((sortedHours rows).map fun h => (h, hourMean rows h))

/-- Comparison of hourly means as `idxmax` ranks them: a missing mean is
below everything (`idxmax` skips `NaN`). -/
def optValLe (a b : Option ℚ) : Bool :=
  match a, b with
  | none, _ => true
  | some _, none => false
  | some x, some y => decide (x ≤ y)

/-- The statistics of the per-country insight text. -/
structure CountryInsights where
  country : String
  avgGHI : Option ℚ
  avgDNI : Option ℚ
  avgDHI : Option ℚ
  avgTamb : Option ℚ
  peakHour : ℕ
deriving DecidableEq

/-- The literal placeholder returned for an absent or empty dataset. -/
def noDataMessage : String :=
  "No data available."

/-- Embedding of `generate_country_insights` (stream.py lines 147-163).
An absent (`None`) or empty frame yields the placeholder string
(`Sum.inl`).  Otherwise the function first assigns the derived `Hour`
column in place on its argument frame, then computes the peak hour via
`idxmax` (raising, `Except.error`, when every hourly mean is missing) and
the four column means.  The second component is the state of the argument
frame afterwards. -/
def generate_country_insights (odf : Option DFrame) (c : String) :
    Except String (Sum String CountryInsights) × Option DFrame :=
  match odf with
  | none => (Except.ok (Sum.inl noDataMessage), none)
  | some df =>
    if df.rows.isEmpty then (Except.ok (Sum.inl noDataMessage), some df)
    else
      let df2 : DFrame :=
        { df with hourCol := some (df.rows.map fun r => r.timestamp.hour) }
      match peakHourOf df.rows with
      | none => (Except.error "attempt to get argmax of an empty sequence",
                 some df2)
      | some h =>
        (Except.ok (Sum.inr
          { country := c,
            avgGHI := seriesMean (df.rows.map Record.ghi),
            avgDNI := seriesMean (df.rows.map Record.dni),
            avgDHI := seriesMean (df.rows.map Record.dhi),
            avgTamb := seriesMean (df.rows.map Record.tamb),
            peakHour := h }), some df2)

/-- Sample timestamp at a given hour of day, used by concrete witnesses. -/
def tsAt (h : ℕ) : Timestamp :=
  { day := 0, hour := h, minute := 0 }

/-- Sample record for concrete witnesses. -/
def mkSample (c : String) (h : ℕ) (g d dh t : Option ℚ) : Record :=
  { timestamp := tsAt h, country := c, ghi := g, dni := d, dhi := dh,
    tamb := t }

/-- One-record frame of a country outside the hardcoded list. -/
def dfSingle : DFrame :=
  { rows := [mkSample "Accra" 10 (some 100) (some 50) (some 30) (some 20)],
    hourCol := none }

/-- The observation content produced for `dfSingle`: every hardcoded
country is absent, so all displayed means fall back to 0, while the
computed optimal-temperature entry is the only present country. -/
def obsSingle : Observations :=
  { ranking := [("Benin", some 0), ("Togo", some 0),
                ("Sierra Leone", some 0)],
    highestName := "Benin", highestGHI := some 0,
    bestDNIName := "Benin", bestDNIVal := some 0,
    optCountry := "Accra", optValue := some 20 }

/-- Three-country frame with mean temperatures 20, 30 and 25 °C. -/
def dfTemps : DFrame :=
  { rows := [mkSample "Benin" 9 (some 200) (some 90) (some 40) (some 20),
             mkSample "Sierra Leone" 9 (some 150) (some 80) (some 35) (some 30),
             mkSample "Togo" 9 (some 180) (some 85) (some 38) (some 25)],
    hourCol := none }

/-- One-country frame whose GHI column has a missing value. -/
def dfMissing : DFrame :=
  { rows := [mkSample "Benin" 9 (some 3) (some 1) (some 1) (some 20),
             mkSample "Benin" 10 none (some 2) (some 1) (some 21),
             mkSample "Benin" 11 (some 5) (some 3) (some 1) (some 22)],
    hourCol := none }

/-- Frame where hour 12 has the unique highest average GHI. -/
def dfHours : DFrame :=
  { rows := [mkSample "Togo" 10 (some 100) (some 40) (some 20) (some 24),
             mkSample "Togo" 12 (some 200) (some 60) (some 30) (some 26)],
    hourCol := none }

/-- The empty frame. -/
def dfEmpty : DFrame :=
  { rows := [], hourCol := none }

/-- Frame whose first-occurrence country order is not alphabetical. -/
def dfUnsorted : DFrame :=
  { rows := [mkSample "Togo" 10 (some 100) (some 40) (some 20) (some 24),
             mkSample "Benin" 11 (some 120) (some 50) (some 25) (some 25)],
    hourCol := none }

/-- Sample raw CSV row. -/
def rawSample : RawRecord :=
  { timestamp := tsAt 8, ghi := some 110, dni := some 45, dhi := some 22,
    tamb := some 23 }

/-- File-system oracle with exactly one readable file. -/
def readsOne : String → Option (List RawRecord) :=
  fun p => if p = "ok.csv" then some [rawSample, rawSample] else none

/-- Sample country-to-path mapping with one good and one bad path. -/
def pathsSample : List (String × String) :=
  [("Benin", "ok.csv"), ("Togo", "missing.csv")]

theorem uniqueAux_mem {α : Type} [DecidableEq α] (l : List α) :
    ∀ (seen : List α) (a : α), a ∈ uniqueAux seen l ↔ a ∈ l ∧ a ∉ seen := by
  induction l with
  | nil => intro seen a; simp [uniqueAux]
  | cons b t ih =>
    intro seen a
    rw [uniqueAux]
    by_cases hb : b ∈ seen
    · rw [if_pos hb, ih]
      by_cases hab : a = b
      · subst hab; simp [hb]
      · simp [hab]
    · rw [if_neg hb]
      by_cases hab : a = b
      · subst hab; simp [hb]
      · simp only [List.mem_cons, hab, false_or, ih (b :: seen) a]

theorem uniqueAux_nodup {α : Type} [DecidableEq α] (l : List α) :
    ∀ seen : List α, (uniqueAux seen l).Nodup := by
  induction l with
  | nil => intro seen; simp [uniqueAux]
  | cons b t ih =>
    intro seen
    rw [uniqueAux]
    by_cases hb : b ∈ seen
    · rw [if_pos hb]; exact ih seen
    · rw [if_neg hb, List.nodup_cons]
      refine ⟨fun hmem => ?_, ih (b :: seen)⟩
      rw [uniqueAux_mem] at hmem
      exact hmem.2 (List.mem_cons_self b seen)

theorem uniqueFirst_mem {α : Type} [DecidableEq α] (l : List α) (a : α) :
    a ∈ uniqueFirst l ↔ a ∈ l := by
  rw [uniqueFirst, uniqueAux_mem]
  simp

theorem uniqueFirst_nodup {α : Type} [DecidableEq α] (l : List α) :
    (uniqueFirst l).Nodup :=
  uniqueAux_nodup l []

theorem strListLe_total (as : List Char) :
    ∀ bs : List Char, strListLe as bs = true ∨ strListLe bs as = true := by
  induction as with
  | nil => intro bs; left; rfl
  | cons a as2 ih =>
    intro bs
    cases bs with
    | nil => right; rfl
    | cons b bs2 =>
      rw [strListLe, strListLe]
      by_cases h : a.toNat = b.toNat
      · rw [if_pos h, if_pos h.symm]
        exact ih bs2
      · rw [if_neg h, if_neg fun h2 => h h2.symm]
        rcases Nat.lt_or_ge a.toNat b.toNat with hlt | hge
        · left; exact decide_eq_true hlt
        · right; exact decide_eq_true (by omega)

theorem strListLe_trans (as : List Char) :
    ∀ bs cs : List Char, strListLe as bs = true → strListLe bs cs = true →
      strListLe as cs = true := by
  induction as with
  | nil => intro bs cs _ _; rfl
  | cons a as2 ih =>
    intro bs cs h1 h2
    cases bs with
    | nil => exact absurd h1 (by rw [strListLe]; simp)
    | cons b bs2 =>
      cases cs with
      | nil => exact absurd h2 (by rw [strListLe]; simp)
      | cons c cs2 =>
        rw [strListLe] at h1 h2 ⊢
        by_cases hab : a.toNat = b.toNat
        · rw [if_pos hab] at h1
          by_cases hbc : b.toNat = c.toNat
          · rw [if_pos hbc] at h2
            rw [if_pos (hab.trans hbc)]
            exact ih bs2 cs2 h1 h2
          · rw [if_neg hbc] at h2
            have hbcn : b.toNat < c.toNat := of_decide_eq_true h2
            rw [if_neg (by omega)]
            exact decide_eq_true (by omega)
        · rw [if_neg hab] at h1
          have habn : a.toNat < b.toNat := of_decide_eq_true h1
          by_cases hbc : b.toNat = c.toNat
          · rw [if_neg (by omega)]
            exact decide_eq_true (by omega)
          · rw [if_neg hbc] at h2
            have hbcn : b.toNat < c.toNat := of_decide_eq_true h2
            rw [if_neg (by omega)]
            exact decide_eq_true (by omega)

instance : IsTotal String strRel :=
  ⟨fun a b => strListLe_total a.data b.data⟩

instance : IsTrans String strRel :=
  ⟨fun a b c h1 h2 => strListLe_trans a.data b.data c.data h1 h2⟩

theorem nodup_keys_eq {α β : Type} (l : List (α × β))
    (h : (l.map Prod.fst).Nodup) :
    ∀ p q, p ∈ l → q ∈ l → p.1 = q.1 → p = q := by
  induction l with
  | nil => intro p q hp _ _; simp at hp
  | cons x t ih =>
    intro p q hp hq heq
    rw [List.map_cons, List.nodup_cons] at h
    rcases List.mem_cons.mp hp with hp2 | hp2 <;>
      rcases List.mem_cons.mp hq with hq2 | hq2
    · rw [hp2, hq2]
    · subst hp2
      exact absurd (by rw [heq]; exact List.mem_map_of_mem Prod.fst hq2) h.1
    · subst hq2
      exact absurd (by rw [← heq]; exact List.mem_map_of_mem Prod.fst hp2) h.1
    · exact ih h.2 p q hp2 hq2 heq

theorem lookup_eq_none_of_not_mem {α β : Type} [BEq α] [LawfulBEq α]
    (l : List (α × β)) (c : α) (h : c ∉ l.map Prod.fst) :
    l.lookup c = none := by
  induction l with
  | nil => rfl
  | cons x t ih =>
    obtain ⟨k, b⟩ := x
    simp only [List.map_cons, List.mem_cons] at h
    push_neg at h
    have hk : (c == k) = false := beq_eq_false_iff_ne.mpr h.1
    simp [List.lookup, hk, ih h.2]

theorem optDistLt_irrefl (d : Option ℚ) : optDistLt d d = false := by
  cases d <;> simp [optDistLt]

theorem optDistLt_asymm {a b : Option ℚ} (h : optDistLt a b = true) :
    optDistLt b a = false := by
  cases a with
  | none => cases b <;> simp [optDistLt] at h
  | some x =>
    cases b with
    | none => simp [optDistLt]
    | some y =>
      simp only [optDistLt, decide_eq_true_eq] at h
      simp only [optDistLt, decide_eq_false_iff_not]
      exact lt_asymm h

theorem argminFirst_mem (l : List (String × Option ℚ)) :
    ∀ b, argminFirst l = some b → b ∈ l := by
  induction l with
  | nil => intro b h; simp [argminFirst] at h
  | cons e t ih =>
    intro b h
    rw [argminFirst] at h
    cases ht : argminFirst t with
    | none =>
      rw [ht] at h
      exact List.mem_cons.mpr (Or.inl (Option.some.inj h).symm)
    | some b2 =>
      rw [ht] at h
      have h2 : (if optDistLt (distTo25 b2.2) (distTo25 e.2) = true
          then some b2 else some e) = some b := h
      by_cases hc : optDistLt (distTo25 b2.2) (distTo25 e.2) = true
      · rw [if_pos hc] at h2
        obtain rfl := Option.some.inj h2
        exact List.mem_cons_of_mem _ (ih _ ht)
      · rw [if_neg hc] at h2
        obtain rfl := Option.some.inj h2
        exact List.mem_cons_self _ _

theorem argminFirst_strict (l : List (String × Option ℚ)) :
    ∀ e : String × Option ℚ, e ∈ l →
      (∀ p ∈ l, p ≠ e → optDistLt (distTo25 e.2) (distTo25 p.2) = true) →
      argminFirst l = some e := by
  induction l with
  | nil => intro e he; simp at he
  | cons a t ih =>
    intro e he hstrict
    rcases List.mem_cons.mp he with rfl | het
    · rw [argminFirst]
      cases ht : argminFirst t with
      | none => rfl
      | some b =>
        show (if optDistLt (distTo25 b.2) (distTo25 e.2) = true
            then some b else some e) = some e
        have hbt : b ∈ t := argminFirst_mem t b ht
        by_cases hbe : b = e
        · subst hbe
          rw [if_neg (by rw [optDistLt_irrefl]; exact Bool.false_ne_true)]
        · have hlt := hstrict b (List.mem_cons_of_mem _ hbt) hbe
          rw [if_neg (by rw [optDistLt_asymm hlt]; exact Bool.false_ne_true)]
    · have hat : argminFirst t = some e :=
        ih e het fun p hp hne => hstrict p (List.mem_cons_of_mem _ hp) hne
      rw [argminFirst, hat]
      show (if optDistLt (distTo25 e.2) (distTo25 a.2) = true
          then some e else some a) = some e
      by_cases hae : a = e
      · subst hae
        rw [if_neg (by rw [optDistLt_irrefl]; exact Bool.false_ne_true)]
      · have hlt := hstrict a (List.mem_cons_self a t) fun h => hae h
        rw [if_pos hlt]

theorem runMax_keep (l : List (ℕ × Option ℚ)) :
    ∀ best : ℕ × ℚ, (∀ p ∈ l, ∀ w, p.2 = some w → w ≤ best.2) →
      runMax best l = best := by
  induction l with
  | nil => intro best _; rfl
  | cons e t ih =>
    intro best hb
    obtain ⟨k, o⟩ := e
    cases o with
    | none =>
      rw [runMax]
      exact ih best fun p hp w hw => hb p (List.mem_cons_of_mem _ hp) w hw
    | some v =>
      rw [runMax]
      have hv : v ≤ best.2 := hb (k, some v) (List.mem_cons_self _ _) v rfl
      rw [if_neg (not_lt.mpr hv)]
      exact ih best fun p hp w hw => hb p (List.mem_cons_of_mem _ hp) w hw

theorem runMax_eq (l : List (ℕ × Option ℚ)) :
    ∀ (best : ℕ × ℚ) (h : ℕ) (m : ℚ),
      l.Pairwise (fun a b => a.1 < b.1) → (h, some m) ∈ l → best.2 < m →
      (∀ p ∈ l, ∀ w, p.2 = some w → w ≤ m) →
      (∀ p ∈ l, p.2 = some m → h ≤ p.1) →
      runMax best l = (h, m) := by
  induction l with
  | nil => intro best h m _ hmem; simp at hmem
  | cons e t ih =>
    intro best h m hpw hmem hlt hub htie
    obtain ⟨k, o⟩ := e
    have hpw2 := (List.pairwise_cons.mp hpw).2
    have hpw1 := (List.pairwise_cons.mp hpw).1
    rcases List.mem_cons.mp hmem with heq | hmem2
    · injection heq with h1 h2
      subst h1
      subst h2
      rw [runMax, if_pos hlt]
      exact runMax_keep t (h, m) fun p hp w hw =>
        hub p (List.mem_cons_of_mem _ hp) w hw
    · cases o with
      | none =>
        rw [runMax]
        exact ih best h m hpw2 hmem2 hlt
          (fun p hp w hw => hub p (List.mem_cons_of_mem _ hp) w hw)
          (fun p hp hw => htie p (List.mem_cons_of_mem _ hp) hw)
      | some v =>
        rw [runMax]
        have hvm : v ≤ m := hub (k, some v) (List.mem_cons_self _ _) v rfl
        have hkh : k < h := hpw1 (h, some m) hmem2
        have hvne : v ≠ m := by
          intro hveq
          have hhk : h ≤ k := htie (k, some v) (List.mem_cons_self _ _)
            (by rw [hveq])
          omega
        have hvm2 : v < m := lt_of_le_of_ne hvm hvne
        by_cases hc : best.2 < v
        · rw [if_pos hc]
          exact ih (k, v) h m hpw2 hmem2 hvm2
            (fun p hp w hw => hub p (List.mem_cons_of_mem _ hp) w hw)
            (fun p hp hw => htie p (List.mem_cons_of_mem _ hp) hw)
        · rw [if_neg hc]
          exact ih best h m hpw2 hmem2 hlt
            (fun p hp w hw => hub p (List.mem_cons_of_mem _ hp) w hw)
            (fun p hp hw => htie p (List.mem_cons_of_mem _ hp) hw)

theorem idxmax_eq (l : List (ℕ × Option ℚ)) :
    ∀ (h : ℕ) (m : ℚ),
      l.Pairwise (fun a b => a.1 < b.1) → (h, some m) ∈ l →
      (∀ p ∈ l, ∀ w, p.2 = some w → w ≤ m) →
      (∀ p ∈ l, p.2 = some m → h ≤ p.1) →
      idxmax l = some h := by
  induction l with
  | nil => intro h m _ hmem; simp at hmem
  | cons e t ih =>
    intro h m hpw hmem hub htie
    obtain ⟨k, o⟩ := e
    have hpw2 := (List.pairwise_cons.mp hpw).2
    have hpw1 := (List.pairwise_cons.mp hpw).1
    rcases List.mem_cons.mp hmem with heq | hmem2
    · injection heq with h1 h2
      subst h1
      subst h2
      rw [idxmax]
      rw [runMax_keep t (h, m) fun p hp w hw =>
        hub p (List.mem_cons_of_mem _ hp) w hw]
    · cases o with
      | none =>
        rw [idxmax]
        exact ih h m hpw2 hmem2
          (fun p hp w hw => hub p (List.mem_cons_of_mem _ hp) w hw)
          (fun p hp hw => htie p (List.mem_cons_of_mem _ hp) hw)
      | some v =>
        rw [idxmax]
        have hvm : v ≤ m := hub (k, some v) (List.mem_cons_self _ _) v rfl
        have hkh : k < h := hpw1 (h, some m) hmem2
        have hvne : v ≠ m := by
          intro hveq
          have hhk : h ≤ k := htie (k, some v) (List.mem_cons_self _ _)
            (by rw [hveq])
          omega
        have hvm2 : v < m := lt_of_le_of_ne hvm hvne
        rw [runMax_eq t (k, v) h m hpw2 hmem2 hvm2
          (fun p hp w hw => hub p (List.mem_cons_of_mem _ hp) w hw)
          (fun p hp hw => htie p (List.mem_cons_of_mem _ hp) hw)]

theorem sortedHours_mem (rows : List Record) (h : ℕ) :
    h ∈ sortedHours rows ↔ ∃ r ∈ rows, r.timestamp.hour = h := by
  rw [sortedHours, (List.perm_insertionSort _ _).mem_iff, uniqueFirst_mem]
  simp [List.mem_map]

theorem sortedHours_pairwise (rows : List Record) :
    (sortedHours rows).Pairwise (· < ·) := by
  have hs : (sortedHours rows).Sorted (· ≤ ·) :=
    List.sorted_insertionSort _ _
  have hn : (sortedHours rows).Nodup :=
    (List.perm_insertionSort _ _).nodup_iff.mpr (uniqueFirst_nodup _)
  exact (hs.and hn).imp fun h => lt_of_le_of_ne h.1 h.2

theorem groupbyMean_keys (rows : List Record) (f : Record → Option ℚ) :
    (groupbyMean rows f).map Prod.fst =
      List.insertionSort strRel (uniqueCountries rows) := by
  rw [groupbyMean, List.map_map]
  have hcomp : (Prod.fst ∘ fun c : String =>
      (c, seriesMean ((countryRows rows c).map f))) = id := rfl
  rw [hcomp, List.map_id]

theorem groupbyMean_keys_nodup (rows : List Record) (f : Record → Option ℚ) :
    ((groupbyMean rows f).map Prod.fst).Nodup := by
  rw [groupbyMean_keys]
  exact (List.perm_insertionSort _ _).nodup_iff.mpr (uniqueFirst_nodup _)

theorem groupbyMean_mem_keys (rows : List Record) (f : Record → Option ℚ)
    (c : String) :
    c ∈ (groupbyMean rows f).map Prod.fst ↔ ∃ r ∈ rows, r.country = c := by
  rw [groupbyMean_keys, (List.perm_insertionSort _ _).mem_iff,
    uniqueCountries, uniqueFirst_mem]
  simp [List.mem_map]

theorem groupbyMean_mem_eq (rows : List Record) (f : Record → Option ℚ)
    (c : String) (v : Option ℚ) (h : (c, v) ∈ groupbyMean rows f) :
    v = seriesMean ((countryRows rows c).map f) := by
  rw [groupbyMean] at h
  obtain ⟨c2, _, heq⟩ := List.mem_map.mp h
  injection heq with e1 e2
  subst e1
  exact e2.symm

theorem seriesMean_congr {xs ys : List (Option ℚ)}
    (h : dropna xs = dropna ys) : seriesMean xs = seriesMean ys := by
  rw [seriesMean, seriesMean, h]

theorem seriesMedian_congr {xs ys : List (Option ℚ)}
    (h : dropna xs = dropna ys) : seriesMedian xs = seriesMedian ys := by
  rw [seriesMedian, seriesMedian, h]

theorem seriesVarSample_congr {xs ys : List (Option ℚ)}
    (h : dropna xs = dropna ys) : seriesVarSample xs = seriesVarSample ys := by
  rw [seriesVarSample, seriesVarSample, h]

theorem seriesMinimum_congr {xs ys : List (Option ℚ)}
    (h : dropna xs = dropna ys) : seriesMinimum xs = seriesMinimum ys := by
  rw [seriesMinimum, seriesMinimum, h]

theorem seriesMaximum_congr {xs ys : List (Option ℚ)}
    (h : dropna xs = dropna ys) : seriesMaximum xs = seriesMaximum ys := by
  rw [seriesMaximum, seriesMaximum, h]

theorem filterMap_colVals_aux (c : String) (m : Metric) (t : List Record) :
    List.filterMap (colVal m)
      (t.filter fun a =>
        a.country == c && (!(a.country == c) || (colVal m a).isSome)) =
    List.filterMap (colVal m) (t.filter fun a => a.country == c) := by
  induction t with
  | nil => rfl
  | cons r t2 ih =>
    by_cases hc : r.country = c
    · have hq : (r.country == c) = true := beq_iff_eq.mpr hc
      cases hval : colVal m r with
      | none => simp [List.filter_cons, hq, hval, ih]
      | some w => simp [List.filter_cons, hq, hval, ih]
    · have hq : (r.country == c) = false := beq_eq_false_iff_ne.mpr hc
      simp [List.filter_cons, hq, ih]

theorem dropna_colVals_filter (rows : List Record) (c : String) (m : Metric) :
    dropna (colVals
      (rows.filter fun r => !(r.country == c) || (colVal m r).isSome) c m) =
    dropna (colVals rows c m) := by
  have haux := filterMap_colVals_aux c m rows
  simp only [colVals, countryRows, dropna]
  simpa using haux

theorem filter_metrics_single (rows : List Record) (c : String) (m : Metric) :
    ((metrics.map (mkRow rows c)).filter fun row =>
      row.country == c && row.metric == m).length = 1 := by
  cases m <;> simp [metrics, mkRow]

theorem filter_metrics_nil (rows : List Record) (c a : String) (m : Metric)
    (h : a ≠ c) :
    ((metrics.map (mkRow rows a)).filter fun row =>
      row.country == c && row.metric == m) = [] := by
  have hq : (a == c) = false := beq_eq_false_iff_ne.mpr h
  simp [metrics, mkRow, hq]

theorem flatMap_filter_nil (rows : List Record) (c : String) (m : Metric)
    (L : List String) (hc : c ∉ L) :
    ((L.flatMap fun a => metrics.map (mkRow rows a)).filter fun row =>
      row.country == c && row.metric == m) = [] := by
  induction L with
  | nil => rfl
  | cons a t ih =>
    rw [List.flatMap_cons, List.filter_append]
    rw [filter_metrics_nil rows c a m fun e => hc (e ▸ List.mem_cons_self a t),
      ih fun ht => hc (List.mem_cons_of_mem a ht)]
    rfl

theorem flatMap_filter_single (rows : List Record) (c : String) (m : Metric)
    (L : List String) (hnd : L.Nodup) (hc : c ∈ L) :
    ((L.flatMap fun a => metrics.map (mkRow rows a)).filter fun row =>
      row.country == c && row.metric == m).length = 1 := by
  induction L with
  | nil => simp at hc
  | cons a t ih =>
    rw [List.flatMap_cons, List.filter_append, List.length_append]
    rw [List.nodup_cons] at hnd
    rcases List.mem_cons.mp hc with rfl | hct
    · rw [filter_metrics_single rows c m, flatMap_filter_nil rows c m t hnd.1]
      rfl
    · have hac : a ≠ c := fun e => hnd.1 (e ▸ hct)
      rw [filter_metrics_nil rows c a m hac, ih hnd.2 hct]
      rfl

theorem summaryData_filter_single (rows : List Record) (c : String)
    (m : Metric) (hc : c ∈ uniqueCountries rows) :
    ((summaryData rows).filter fun row =>
      row.country == c && row.metric == m).length = 1 := by
  rw [summaryData]
  exact flatMap_filter_single rows c m (uniqueCountries rows)
    (uniqueFirst_nodup _) hc

theorem load_data_snd (readCsv : String → Option (List RawRecord))
    (paths : List (String × String)) :
    (load_data readCsv paths).2 = paths.filterMap (loadEntry readCsv) := by
  rw [load_data]
  by_cases he : (paths.filterMap (loadEntry readCsv)).isEmpty
  · rw [if_pos he]
    exact (List.isEmpty_iff.mp he).symm
  · rw [if_neg he]

theorem load_data_fst_count (readCsv : String → Option (List RawRecord))
    (paths : List (String × String)) :
    recordCount (load_data readCsv paths).1 =
      (((load_data readCsv paths).2).map fun e => e.2.length).sum := by
  rw [load_data]
  by_cases he : (paths.filterMap (loadEntry readCsv)).isEmpty
  · rw [if_pos he]
    rfl
  · rw [if_neg he]
    show ((paths.filterMap (loadEntry readCsv)).map
      Prod.snd).flatten.length = _
    rw [List.length_flatten, List.map_map]
    rfl

/-- C5: calling the per-country insight with an absent (`None`) or empty
dataset returns the fixed placeholder string "No data available." as a
normal result (no exception) and performs no computation on the frame,
which is left untouched; statistics are only computed on non-empty input.
-/
theorem countryInsights_no_data_placeholder (c : String) :
    generate_country_insights none c =
      (Except.ok (Sum.inl noDataMessage), none) ∧
    ∀ df : DFrame, df.rows = [] →
      generate_country_insights (some df) c =
        (Except.ok (Sum.inl noDataMessage), some df) := by
  refine ⟨rfl, fun df h => ?_⟩
  obtain ⟨rows, hcol⟩ := df
  simp only at h
  subst h
  rfl

/-- Closed instance of `countryInsights_no_data_placeholder` at the empty
frame. -/
theorem countryInsights_no_data_placeholder_witness :
    generate_country_insights (some dfEmpty) "Benin" =
      (Except.ok (Sum.inl noDataMessage), some dfEmpty) :=
  (countryInsights_no_data_placeholder "Benin").2 dfEmpty rfl

unseal Rat.add Rat.mul Rat.inv Rat.sub in
/-- C9 counterexample: the per-country insight does not leave its input
frame unchanged; on a one-record frame without an `Hour` column it
returns a mutated frame (the `Hour` column has been assigned in place).
-/
theorem countryInsights_mutates_input_frame :
    (generate_country_insights (some dfSingle) "Accra").2 ≠ some dfSingle := by
  decide

/-- C9 amended: the Aggregator's summary computation and the Insight
Generator leave their input frame unchanged, and so does a per-country
insight call on an absent or empty frame; but a per-country insight call
on a non-empty frame returns the frame with the derived `Hour` column
assigned (its records are unchanged — the dashboard invokes the function
on a copy, so the stored per-country dataset is unaffected). -/
theorem core_operations_frame_behavior (df : DFrame) (c : String) :
    (summary_statistics_table df).2 = df ∧
    (generate_key_observations df).2 = df ∧
    (generate_country_insights none c).2 = none ∧
    (generate_country_insights (some df) c).2 =
      some (if df.rows.isEmpty then df
        else { df with
          hourCol := some (df.rows.map fun r => r.timestamp.hour) }) := by
  refine ⟨rfl, ?_, rfl, ?_⟩
  · rw [generate_key_observations]
    cases argminFirst (groupbyMean df.rows Record.tamb) <;> rfl
  · rw [generate_country_insights]
    by_cases he : df.rows.isEmpty
    · rw [if_pos he, if_pos he]
    · rw [if_neg he, if_neg he]
      cases peakHourOf df.rows <;> rfl

/-- C10 counterexample: on a frame whose countries first appear in the
order Togo, Benin, the index of the returned pivoted summary table is not
the first-occurrence order. -/
theorem summaryTable_index_not_first_occurrence :
    (summary_statistics_table dfUnsorted).1.index ≠
      uniqueCountries dfUnsorted.rows := by
  decide

/-- C10 amended: the intermediate summary rows are generated in
first-occurrence country order (three metric rows per country), but the
index of the returned pivoted table is the country list sorted in
ascending code-point order (the pandas `pivot` sorts its index). -/
theorem summaryTable_index_sorted (df : DFrame) :
    (summary_statistics_table df).1.index =
      List.insertionSort strRel (uniqueCountries df.rows) ∧
    ((summary_statistics_table df).1.index.Sorted strRel ∧
      (summary_statistics_table df).1.index.Perm (uniqueCountries df.rows)) ∧
    ((summary_statistics_table df).1.data.map StatRow.country) =
      (uniqueCountries df.rows).flatMap fun c => [c, c, c] := by
  refine ⟨rfl, ⟨List.sorted_insertionSort _ _, List.perm_insertionSort _ _⟩,
    ?_⟩
  show (summaryData df.rows).map StatRow.country = _
  rw [summaryData]
  generalize uniqueCountries df.rows = L
  induction L with
  | nil => rfl
  | cons a t ih =>
    rw [List.flatMap_cons, List.flatMap_cons, List.map_append, ih]
    rfl

/-- C1: for every frame on which the Insight Generator produces output,
the solar-potential ranking lists exactly the literal countries Benin,
Togo, Sierra Leone in that fixed order, and both the highest-GHI country
and the best-DNI country are the literal `Benin` — none of these depend
on the computed per-country means (which only feed the displayed
numbers); only the optimal-temperature entry is the computed
closest-to-25 °C one. -/
theorem keyObservations_fixed_literal_ranking (df : DFrame)
    (obs : Observations) (hobs : (generate_key_observations df).1 = some obs) :
    obs.ranking.map Prod.fst = ["Benin", "Togo", "Sierra Leone"] ∧
    obs.highestName = "Benin" ∧
    obs.bestDNIName = "Benin" ∧
    obs.highestGHI = seriesGet (groupbyMean df.rows Record.ghi) "Benin" ∧
    obs.bestDNIVal = seriesGet (groupbyMean df.rows Record.dni) "Benin" ∧
    argminFirst (groupbyMean df.rows Record.tamb) =
      some (obs.optCountry, obs.optValue) := by
  cases harg : argminFirst (groupbyMean df.rows Record.tamb) with
  | none =>
    rw [generate_key_observations, harg] at hobs
    exact absurd hobs (by simp)
  | some e =>
    rw [generate_key_observations, harg] at hobs
    have h2 : some (mkObservations df.rows e) = some obs := hobs
    obtain rfl := (Option.some.inj h2).symm
    exact ⟨rfl, rfl, rfl, rfl, rfl, rfl⟩

/-- C2: whenever one country's mean ambient temperature is strictly
closest to 25 by absolute difference (missing means count as infinitely
far, as `argsort` sorts them last), the Insight Generator reports exactly
that country and its mean as the Optimal Temperature line. -/
theorem optimalTemperature_strictly_closest (df : DFrame) (c : String)
    (v : ℚ) (hmem : (c, some v) ∈ groupbyMean df.rows Record.tamb)
    (hstrict : ∀ p ∈ groupbyMean df.rows Record.tamb,
      p.1 ≠ c → optDistLt (some |v - 25|) (distTo25 p.2) = true) :
    ∃ obs : Observations,
      (generate_key_observations df).1 = some obs ∧
      obs.optCountry = c ∧ obs.optValue = some v := by
  have hnd := groupbyMean_keys_nodup df.rows Record.tamb
  have harg : argminFirst (groupbyMean df.rows Record.tamb) =
      some (c, some v) := by
    apply argminFirst_strict _ _ hmem
    intro p hp hne
    have hpc : p.1 ≠ c := by
      intro he
      exact hne (nodup_keys_eq _ hnd p (c, some v) hp hmem he)
    exact hstrict p hp hpc
  refine ⟨mkObservations df.rows (c, some v), ?_, rfl, rfl⟩
  rw [generate_key_observations, harg]

/-- C6: when one of the literally named countries has no record in the
frame, its displayed GHI mean in the ranking is the substituted default
0 (not an error), and likewise for the highest-GHI and best-DNI values
when the absent country is Benin. -/
theorem keyObservations_missing_country_zero (df : DFrame)
    (obs : Observations) (n : String)
    (hobs : (generate_key_observations df).1 = some obs)
    (hn : n ∈ (["Benin", "Togo", "Sierra Leone"] : List String))
    (habs : ∀ r ∈ df.rows, r.country ≠ n) :
    obs.ranking.lookup n = some (some 0) ∧
    (n = "Benin" → obs.highestGHI = some 0 ∧ obs.bestDNIVal = some 0) := by
  have hget : ∀ f : Record → Option ℚ,
      seriesGet (groupbyMean df.rows f) n = some 0 := by
    intro f
    have hnolook : (groupbyMean df.rows f).lookup n = none := by
      apply lookup_eq_none_of_not_mem
      intro hcmem
      rw [groupbyMean_mem_keys] at hcmem
      obtain ⟨r, hr, hrc⟩ := hcmem
      exact habs r hr hrc
    rw [seriesGet, hnolook]
  cases harg : argminFirst (groupbyMean df.rows Record.tamb) with
  | none =>
    rw [generate_key_observations, harg] at hobs
    exact absurd hobs (by simp)
  | some e =>
    rw [generate_key_observations, harg] at hobs
    have h2 : some (mkObservations df.rows e) = some obs := hobs
    obtain rfl := (Option.some.inj h2).symm
    have hn2 : n = "Benin" ∨ n = "Togo" ∨ n = "Sierra Leone" := by
      simpa using hn
    rcases hn2 with rfl | rfl | rfl
    · exact ⟨by simp [mkObservations, List.lookup, hget],
        fun _ => ⟨hget Record.ghi, hget Record.dni⟩⟩
    · have e1 : ("Togo" == "Benin") = false := by decide
      have e2 : ("Togo" == "Togo") = true := by decide
      exact ⟨by simp [mkObservations, List.lookup, e1, e2, hget],
        fun h => absurd h (by decide)⟩
    · have e1 : ("Sierra Leone" == "Benin") = false := by decide
      have e2 : ("Sierra Leone" == "Togo") = false := by decide
      have e3 : ("Sierra Leone" == "Sierra Leone") = true := by decide
      exact ⟨by simp [mkObservations, List.lookup, e1, e2, e3, hget],
        fun h => absurd h (by decide)⟩

/-- C3: the summary table has exactly one statistics row for every
(country, metric) pair with the country present in the frame; the row is
unchanged when the records whose cell for that metric is missing are
removed (missing values are excluded, not treated as 0); and a pair with
no non-missing values yields a row of undefined (`none`/`NaN`)
statistics rather than an error. -/
theorem summaryTable_rows_complete_nonmissing (df : DFrame) (c : String)
    (m : Metric) (hpresent : ∃ r ∈ df.rows, r.country = c) :
    (((summary_statistics_table df).1.data.filter fun row =>
      row.country == c && row.metric == m).length = 1) ∧
    mkRow df.rows c m =
      mkRow (df.rows.filter fun r =>
        !(r.country == c) || (colVal m r).isSome) c m ∧
    (dropna (colVals df.rows c m) = [] →
      mkRow df.rows c m =
        { country := c, metric := m, mean := none, median := none,
          stdSq := none, vmin := none, vmax := none }) := by
  refine ⟨?_, ?_, ?_⟩
  · have hcmem : c ∈ uniqueCountries df.rows := by
      rw [uniqueCountries, uniqueFirst_mem]
      obtain ⟨r, hr, hrc⟩ := hpresent
      exact List.mem_map.mpr ⟨r, hr, hrc⟩
    exact summaryData_filter_single df.rows c m hcmem
  · have hd := dropna_colVals_filter df.rows c m
    rw [mkRow, mkRow, seriesMean_congr hd, seriesMedian_congr hd,
      seriesVarSample_congr hd, seriesMinimum_congr hd,
      seriesMaximum_congr hd]
  · intro hempty
    have h1 : seriesMean (colVals df.rows c m) = none := by
      rw [seriesMean, hempty]
      rfl
    have h2 : seriesMedian (colVals df.rows c m) = none := by
      rw [seriesMedian, hempty]
      rfl
    have h3 : seriesVarSample (colVals df.rows c m) = none := by
      rw [seriesVarSample, hempty]
      rfl
    have h4 : seriesMinimum (colVals df.rows c m) = none := by
      rw [seriesMinimum, hempty]
    have h5 : seriesMaximum (colVals df.rows c m) = none := by
      rw [seriesMaximum, hempty]
    rw [mkRow, h1, h2, h3, h4, h5]

/-- C4: on a non-empty frame, the per-country insight reports as peak
hour the hour of day with the highest average GHI over the hour groups
extracted from the timestamps, and on a tie the smallest such hour; the
result is delivered without an exception. -/
theorem countryInsights_peak_hour (df : DFrame) (cname : String) (h : ℕ)
    (hmem : h ∈ sortedHours df.rows)
    (hdef : hourMean df.rows h ≠ none)
    (hmax : ∀ h2 ∈ sortedHours df.rows,
      optValLe (hourMean df.rows h2) (hourMean df.rows h) = true)
    (hleast : ∀ h2 ∈ sortedHours df.rows,
      hourMean df.rows h2 = hourMean df.rows h → h ≤ h2) :
    ∃ i : CountryInsights,
      (generate_country_insights (some df) cname).1 =
        Except.ok (Sum.inr i) ∧ i.peakHour = h := by
  cases hm : hourMean df.rows h with
  | none => exact absurd hm hdef
  | some m =>
    have hpk : peakHourOf df.rows = some h := by
      rw [peakHourOf]
      apply idxmax_eq _ h m
      · rw [List.pairwise_map]
        exact sortedHours_pairwise df.rows
      · exact List.mem_map.mpr ⟨h, hmem, by simp [hm]⟩
      · intro p hp w hw
        obtain ⟨h2, hh2, rfl⟩ := List.mem_map.mp hp
        have hle := hmax h2 hh2
        rw [hm] at hle
        simp only at hw
        rw [hw] at hle
        exact of_decide_eq_true hle
      · intro p hp hw
        obtain ⟨h2, hh2, rfl⟩ := List.mem_map.mp hp
        simp only at hw
        exact hleast h2 hh2 (hw.trans hm.symm)
    have hne : df.rows ≠ [] := by
      obtain ⟨r, hr, _⟩ := (sortedHours_mem df.rows h).mp hmem
      intro h0
      rw [h0] at hr
      simp at hr
    have hie : df.rows.isEmpty = false := by
      cases hrows : df.rows with
      | nil => exact absurd hrows hne
      | cons a t => rfl
    refine ⟨{ country := cname,
              avgGHI := seriesMean (df.rows.map Record.ghi),
              avgDNI := seriesMean (df.rows.map Record.dni),
              avgDHI := seriesMean (df.rows.map Record.dhi),
              avgTamb := seriesMean (df.rows.map Record.tamb),
              peakHour := h }, ?_, rfl⟩
    rw [generate_country_insights, hie, if_neg Bool.false_ne_true, hpk]

/-- C7: a failed read for one country only removes that country from the
returned mapping: its name does not occur among the mapping keys, every
other successfully read country still occurs, and the record count of
the combined table is the sum of the per-country row counts of the
successfully loaded countries only. -/
theorem loadData_skips_failed_country
    (readCsv : String → Option (List RawRecord))
    (paths : List (String × String)) (c p : String)
    (hnd : (paths.map Prod.fst).Nodup) (hmem : (c, p) ∈ paths)
    (hfail : readCsv p = none) :
    c ∉ (load_data readCsv paths).2.map Prod.fst ∧
    (∀ c2 p2, (c2, p2) ∈ paths → (readCsv p2).isSome = true → c2 ≠ c →
      c2 ∈ (load_data readCsv paths).2.map Prod.fst) ∧
    recordCount (load_data readCsv paths).1 =
      ((load_data readCsv paths).2.map fun e => e.2.length).sum := by
  refine ⟨?_, ?_, load_data_fst_count readCsv paths⟩
  · rw [load_data_snd]
    intro hc
    obtain ⟨q, hq, hq1⟩ := List.mem_map.mp hc
    obtain ⟨a, ha, hFa⟩ := List.mem_filterMap.mp hq
    rw [loadEntry] at hFa
    cases hra : readCsv a.2 with
    | none =>
      rw [hra] at hFa
      simp at hFa
    | some rs =>
      rw [hra] at hFa
      have hq2 : q = (a.1, rs.map (tagCountry a.1)) :=
        (Option.some.inj hFa).symm
      have ha1 : a.1 = c := by
        rw [hq2] at hq1
        exact hq1
      have heq : a = (c, p) :=
        nodup_keys_eq paths hnd a (c, p) ha hmem (by rw [ha1])
      have ha2 : a.2 = p := by rw [heq]
      rw [ha2, hfail] at hra
      exact Option.noConfusion hra
  · intro c2 p2 hm2 hsome hne
    rw [load_data_snd]
    obtain ⟨rs, hrs⟩ := Option.isSome_iff_exists.mp hsome
    have hin : (c2, rs.map (tagCountry c2)) ∈
        paths.filterMap (loadEntry readCsv) :=
      List.mem_filterMap.mpr ⟨(c2, p2), hm2, by rw [loadEntry, hrs]; rfl⟩
    exact List.mem_map.mpr ⟨_, hin, rfl⟩

/-- C8: if at least one country reads successfully, the loader returns a
present combined table (so `main` proceeds past its check); if none
does, it returns `(None, {})` and `main` halts. -/
theorem loadData_result_gates_main
    (readCsv : String → Option (List RawRecord))
    (paths : List (String × String)) :
    ((∃ e ∈ paths, (readCsv e.2).isSome = true) →
      (∃ l, (load_data readCsv paths).1 = some l) ∧
      mainProceeds (load_data readCsv paths) = true) ∧
    ((∀ e ∈ paths, readCsv e.2 = none) →
      load_data readCsv paths = (none, []) ∧
      mainProceeds (load_data readCsv paths) = false) := by
  constructor
  · rintro ⟨e, he, hsome⟩
    obtain ⟨rs, hrs⟩ := Option.isSome_iff_exists.mp hsome
    have hmemf : (e.1, rs.map (tagCountry e.1)) ∈
        paths.filterMap (loadEntry readCsv) :=
      List.mem_filterMap.mpr ⟨e, he, by rw [loadEntry, hrs]; rfl⟩
    have hie : (paths.filterMap (loadEntry readCsv)).isEmpty = false := by
      cases hfm : paths.filterMap (loadEntry readCsv) with
      | nil =>
        rw [hfm] at hmemf
        simp at hmemf
      | cons x t => rfl
    constructor
    · refine ⟨((paths.filterMap (loadEntry readCsv)).map Prod.snd).flatten,
        ?_⟩
      rw [load_data, hie, if_neg Bool.false_ne_true]
    · rw [mainProceeds, load_data, hie, if_neg Bool.false_ne_true]
      rfl
  · intro hall
    have h0 : paths.filterMap (loadEntry readCsv) = [] := by
      rw [List.filterMap_eq_nil_iff]
      intro a ha
      rw [loadEntry, hall a ha]
      rfl
    constructor
    · rw [load_data, h0]
      rfl
    · rw [mainProceeds, load_data, h0]
      rfl

unseal Rat.add Rat.mul Rat.inv Rat.sub in
/-- Closed instance of the fixed-ranking theorem on a concrete one-record
frame whose only country is outside the hardcoded list. -/
theorem keyObservations_fixed_literal_ranking_witness :
    (generate_key_observations dfSingle).1 = some obsSingle ∧
    obsSingle.ranking.map Prod.fst = ["Benin", "Togo", "Sierra Leone"] :=
  ⟨by decide,
    (keyObservations_fixed_literal_ranking dfSingle obsSingle (by decide)).1⟩

unseal Rat.add Rat.mul Rat.inv Rat.sub in
/-- Closed instance of the optimal-temperature theorem: mean temperatures
20, 30, 25 °C make Togo the strictly closest country to 25 °C. -/
theorem optimalTemperature_strictly_closest_witness :
    ("Togo", some (25 : ℚ)) ∈ groupbyMean dfTemps.rows Record.tamb ∧
    (∀ p ∈ groupbyMean dfTemps.rows Record.tamb,
      p.1 ≠ "Togo" →
        optDistLt (some |(25 : ℚ) - 25|) (distTo25 p.2) = true) ∧
    ∃ obs : Observations,
      (generate_key_observations dfTemps).1 = some obs ∧
      obs.optCountry = "Togo" ∧ obs.optValue = some 25 :=
  ⟨by decide, by decide,
    optimalTemperature_strictly_closest dfTemps "Togo" 25 (by decide)
      (by decide)⟩

/-- Closed instance of the summary-row theorem on a frame with a missing
GHI cell. -/
theorem summaryTable_rows_complete_nonmissing_witness :
    (∃ r ∈ dfMissing.rows, r.country = "Benin") ∧
    ((summary_statistics_table dfMissing).1.data.filter fun row =>
      row.country == "Benin" && row.metric == Metric.GHI).length = 1 :=
  ⟨by decide,
    (summaryTable_rows_complete_nonmissing dfMissing "Benin" Metric.GHI
      (by decide)).1⟩

unseal Rat.add Rat.mul Rat.inv Rat.sub in
/-- Closed instance of the peak-hour theorem: hour 12 has the unique
highest average GHI, so the reported peak hour is 12. -/
theorem countryInsights_peak_hour_witness :
    12 ∈ sortedHours dfHours.rows ∧
    ∃ i : CountryInsights,
      (generate_country_insights (some dfHours) "Togo").1 =
        Except.ok (Sum.inr i) ∧ i.peakHour = 12 :=
  ⟨by decide,
    countryInsights_peak_hour dfHours "Togo" 12 (by decide) (by decide)
      (by decide) (by decide)⟩

unseal Rat.add Rat.mul Rat.inv Rat.sub in
/-- Closed instance of the missing-country theorem: `dfSingle` has no
Benin records, so Benin's ranking line displays the default 0. -/
theorem keyObservations_missing_country_zero_witness :
    (∀ r ∈ dfSingle.rows, r.country ≠ "Benin") ∧
    obsSingle.ranking.lookup "Benin" = some (some 0) :=
  ⟨by decide,
    (keyObservations_missing_country_zero dfSingle obsSingle "Benin"
      (by decide) (by decide) (by decide)).1⟩

/-- Closed instance of the failed-country theorem: the `Togo` path does
not read, so `Togo` is absent from the returned mapping. -/
theorem loadData_skips_failed_country_witness :
    ("Togo", "missing.csv") ∈ pathsSample ∧
    readsOne "missing.csv" = none ∧
    "Togo" ∉ (load_data readsOne pathsSample).2.map Prod.fst :=
  ⟨by decide, by decide,
    (loadData_skips_failed_country readsOne pathsSample "Togo"
      "missing.csv" (by decide) (by decide) (by decide)).1⟩

/-- Closed instance of the gating theorem: one country reads
successfully, so the caller proceeds. -/
theorem loadData_result_gates_main_witness :
    (∃ e ∈ pathsSample, (readsOne e.2).isSome = true) ∧
    mainProceeds (load_data readsOne pathsSample) = true :=
  ⟨by decide,
    ((loadData_result_gates_main readsOne pathsSample).1 (by decide)).2⟩
